import Mathlib

/-!
Verification of the normalization / matching / classification / export core of
`src/main.py` (Meraki lifecycle report generator).

Python strings are modelled as lists of Unicode code points (`List Nat`);
`codes` translates a Lean string literal into that representation.  Pure
Python functions of the source become Lean functions over this model;
`pandas`/`bs4` values are modelled by explicit lists and records carrying the
same data.
-/

/-- Code points of a string literal.  A Python `str` value is modelled as the
list of its Unicode code points. -/
def codes (s : String) : List Nat := s.data.map Char.toNat

/-- Python whitespace as used by `str.strip` / `str.split` in this program
(ASCII whitespace: space, tab, newline, carriage return, vertical tab,
form feed). -/
def isPyWs (n : Nat) : Bool :=
  n == 32 || n == 9 || n == 10 || n == 13 || n == 11 || n == 12

/-- Remove a trailing run of whitespace (the right half of Python
`str.strip`). -/
def rstripWs : List Nat → List Nat
  | [] => []
  | a :: t =>
    match rstripWs t with
    | [] => if isPyWs a then [] else [a]
    | b :: u => a :: b :: u

/-- Python `str.strip()`: drop leading and trailing whitespace. -/
def pyStrip (l : List Nat) : List Nat := rstripWs (l.dropWhile isPyWs)

/-- Python `s.split(sep)[0]` for a one-character separator `c`: the text
before the first occurrence of `c`. -/
def takeBeforeCh (c : Nat) (l : List Nat) : List Nat :=
  l.takeWhile (fun a => a != c)

/-- Python `pat in s` for a non-empty pattern: substring containment. -/
def containsSeq (pat : List Nat) : List Nat → Bool
  | [] => pat.isEmpty
  | a :: rest => pat.isPrefixOf (a :: rest) || containsSeq pat rest

/-- Python `s.split(pat)[0]` for a multi-character pattern: the text before
the first occurrence of `pat` (the whole string if `pat` is absent). -/
def takeBeforeSeq (pat : List Nat) : List Nat → List Nat
  | [] => []
  | a :: rest =>
    if pat.isPrefixOf (a :: rest) then [] else a :: takeBeforeSeq pat rest

/-- Python `str.upper` on one code point (ASCII letters; the product labels
and model names handled by this program are ASCII). -/
def pyUpperCh (n : Nat) : Nat := if 97 ≤ n ∧ n ≤ 122 then n - 32 else n

/-- Python `str.lower` on one code point (ASCII letters). -/
def toLowerCh (n : Nat) : Nat := if 65 ≤ n ∧ n ≤ 90 then n + 32 else n

/-- The literal `"-HW"` pattern of `normalize_product_to_key`. -/
def hwPat : List Nat := codes "-HW"

/-- A Python value passed to `normalize_product_to_key`: either a `str` or a
non-string value (the `isinstance(s, str)` guard). -/
inductive PyVal where
  | str (l : List Nat)
  | nonStr
deriving DecidableEq

/-- Core of `normalize_product_to_key` (src/main.py:21-33) on the code-point
list of a string argument:
`s.strip()`, then `s.split(",")[0].strip()`, then `s.split(" ")[0]`, then
`s.split("-HW")[0]` when `"-HW" in s`, then `s.upper()`. -/
def normalizeChars (l : List Nat) : List Nat :=
  let s1 := pyStrip l
  let s2 := pyStrip (takeBeforeCh 44 s1)
  let s3 := takeBeforeCh 32 s2
  let s4 := if containsSeq hwPat s3 then takeBeforeSeq hwPat s3 else s3
  s4.map pyUpperCh

/-- `normalize_product_to_key` (src/main.py:21-33): non-string values map to
the empty string, strings go through `normalizeChars`. -/
def normalize_product_to_key : PyVal → List Nat
  | .str l => normalizeChars l
  | .nonStr => []

/-! ### The Key Normalizer as described by claim C3

Two renderings of the claim's wording, used to compare against the source
function: `claimedNormalize` is the claim verbatim (first space-separated
token of the text before the first comma of the trimmed input, truncated at
`"-HW"`, uppercased), `claimedNormalizeTrimmed` additionally trims the text
before the first comma, as the source does. -/

/-- Claim C3's description of the normalizer, rendered literally. -/
def claimedNormalize : PyVal → List Nat
  | .nonStr => []
  | .str l =>
    let t := pyStrip l
    let tok := takeBeforeCh 32 (takeBeforeCh 44 t)
    let tok2 := if containsSeq hwPat tok then takeBeforeSeq hwPat tok else tok
    tok2.map pyUpperCh

/-- Claim C3's description amended with the inner trim the source applies to
the text before the first comma. -/
def claimedNormalizeTrimmed : PyVal → List Nat
  | .nonStr => []
  | .str l =>
    let t := pyStrip l
    let tok := takeBeforeCh 32 (pyStrip (takeBeforeCh 44 t))
    let tok2 := if containsSeq hwPat tok then takeBeforeSeq hwPat tok else tok
    tok2.map pyUpperCh

/-! ### EoL Table Builder (`fetch_eol_table`, src/main.py:36-108)

The fetched page is modelled by the data the pure core consumes: the parsed
table rows (a `Product` cell plus the remaining cells, kept abstract as `α`)
and, separately, the raw-markup table as rows of cells of anchors, each
anchor carrying an optional `href`. -/

/-- Python `s.split(c)` for a one-character separator: all parts. -/
def splitOnCh (c : Nat) : List Nat → List (List Nat)
  | [] => [[]]
  | a :: t =>
    let r := splitOnCh c t
    if a == c then [] :: r
    else
      match r with
      | [] => [[a]]
      | p :: ps => (a :: p) :: ps

/-- Python `"; ".join(v)` (src/main.py:102). -/
def joinSemicolon : List (List Nat) → List Nat
  | [] => []
  | [u] => u
  | u :: v :: rest => u ++ codes "; " ++ joinSemicolon (v :: rest)

/-- A parsed table row before link attachment: the `Product` cell plus the
remaining cells (dates etc.), abstract in `α`. -/
structure RawRow (α : Type) where
  product : List Nat
  rest : α
deriving DecidableEq

/-- A parsed table row after link attachment. -/
structure CatRow (α : Type) where
  product : List Nat
  links : List (List Nat)
  rest : α
deriving DecidableEq

/-- A catalog entry as returned by `fetch_eol_table`: single SKU label,
normalized key, `"; "`-joined upgrade-path URL string, remaining cells. -/
structure CatEntry (α : Type) where
  product : List Nat
  productKey : List Nat
  upgradePath : List Nat
  rest : α
deriving DecidableEq

/-- Links of one `td` cell (src/main.py:61-66): the `href` of each anchor,
kept when present and non-empty (Python truthiness of `href`). -/
def cellLinks (cell : List (Option (List Nat))) : List (List Nat) :=
  cell.filterMap fun h =>
    match h with
    | some u => if u.isEmpty then none else some u
    | none => none

/-- Link extraction (src/main.py:59-68): for every `tr`, for every `td`, the
cell's link list is appended when non-empty.  One entry per link-bearing
cell, in row-major document order. -/
def extractLinks (table : List (List (List (Option (List Nat))))) :
    List (List (List Nat)) :=
  (table.map fun row => (row.map cellLinks).filter fun s => !s.isEmpty).flatten

/-- Link extraction as described by claim C6: one list per table row, holding
all hyperlink targets found in that row's cells. -/
def claimedRowLinks (table : List (List (List (Option (List Nat))))) :
    List (List (List Nat)) :=
  table.map fun row => (row.map cellLinks).flatten

/-- Truncate or pad the link lists to length `n` (src/main.py:74-76). -/
def padTo (n : Nat) (ls : List (List (List Nat))) : List (List (List Nat)) :=
  let t := ls.take n
  t ++ List.replicate (n - t.length) []

/-- Attach the extracted link lists to the parsed rows
(src/main.py:70-77): positional pairing, truncating/padding on mismatch. -/
def attachLinks {α : Type} (rows : List (RawRow α))
    (ls : List (List (List Nat))) : List (CatRow α) :=
  let padded := if ls.length == rows.length then ls else padTo rows.length ls
  rows.zipWith (fun r l => ⟨r.product, l, r.rest⟩) padded

/-- Multi-SKU expansion of one row (src/main.py:80-91): split the `Product`
cell on commas, strip each part, drop empty parts; a row with no non-empty
part is kept as-is, otherwise one copy per part. -/
def expandRow {α : Type} (r : CatRow α) : List (CatRow α) :=
  let parts := ((splitOnCh 44 r.product).map pyStrip).filter fun p => !p.isEmpty
  if parts.isEmpty then [r]
  else parts.map fun p => { r with product := p }

/-- Pure core of `fetch_eol_table` after link attachment
(src/main.py:79-108): expand multi-SKU rows, compute `ProductKey` with the
normalizer, drop rows with an empty key, join each row's links with `"; "`. -/
def buildCatalog {α : Type} (rows : List (CatRow α)) : List (CatEntry α) :=
  let expanded := (rows.map expandRow).flatten
  ((expanded.map fun r => (r, normalize_product_to_key (.str r.product))).filter
      fun rk => !rk.2.isEmpty).map
    fun rk => ⟨rk.1.product, rk.2, joinSemicolon rk.1.links, rk.1.rest⟩

/-! ### Inventory Matcher (`build_eol_reports`, src/main.py:162-204) -/

/-- One inventory device record: `model` and nullable `networkId`. -/
structure InvDevice where
  model : List Nat
  networkId : Option (List Nat)
deriving DecidableEq

/-- `ModelKey` column (src/main.py:181-186): uppercased models of the
devices assigned to a network (`networkId` non-null). -/
def assignedModelKeys (devices : List InvDevice) : List (List Nat) :=
  ((devices.filter fun d => d.networkId.isSome).map
    fun d => d.model.map pyUpperCh)

/-- Matched rows of one organization before sorting (src/main.py:188-194):
each catalog entry paired with `counts[ProductKey]`, kept only when the key
occurs at least once among the assigned model keys (`dropna`). -/
def matchedRows {α : Type} (catalog : List (CatEntry α))
    (devices : List InvDevice) : List (CatEntry α × Nat) :=
  catalog.filterMap fun e =>
    let c := (assignedModelKeys devices).count e.productKey
    if c = 0 then none else some (e, c)

/-- The contract of `final_eol.sort_values(by=["Total Units"],
ascending=False)` (src/main.py:196-200): the output is a permutation of the
input, sorted by unit count descending.  pandas' default sort kind
(`quicksort`) guarantees nothing more, in particular not stability. -/
def validUnitsSort {α : Type} (inp out : List (CatEntry α × Nat)) : Prop :=
  inp.Perm out ∧ out.Pairwise fun a b => b.2 ≤ a.2

/-- Claim C4's tie property: two rows with equal unit counts keep their
input (catalog) relative order in the output. -/
def tiesKeepOrder {α : Type} (inp out : List (CatEntry α × Nat)) : Prop :=
  ∀ i j (hi : i < inp.length) (hj : j < inp.length), i < j →
    (inp.get ⟨i, hi⟩).2 = (inp.get ⟨j, hj⟩).2 →
    ∃ (i' : Nat) (j' : Nat) (hi' : i' < out.length) (hj' : j' < out.length),
      i' < j' ∧ out.get ⟨i', hi'⟩ = inp.get ⟨i, hi⟩ ∧
        out.get ⟨j', hj'⟩ = inp.get ⟨j, hj⟩

/-- Insertion into a list sorted by unit count descending (a witness that a
`validUnitsSort` output always exists). -/
def insertDescBy {α : Type} (x : CatEntry α × Nat) :
    List (CatEntry α × Nat) → List (CatEntry α × Nat)
  | [] => [x]
  | y :: t => if x.2 ≤ y.2 then y :: insertDescBy x t else x :: y :: t

/-- Insertion sort by unit count descending. -/
def sortDescByUnits {α : Type} : List (CatEntry α × Nat) → List (CatEntry α × Nat)
  | [] => []
  | x :: t => insertDescBy x (sortDescByUnits t)

/-! ### Risk Classifier (`_parse_end_of_support`, src/main.py:225-252, and
the highlight logic of `generate_pdf`, src/main.py:380-398)

`datetime.strptime` with the three formats `"%b %d, %Y"`, `"%B %d, %Y"` and
`"%Y-%m-%d"` is embedded as a deterministic parser over code-point lists:
month names match case-insensitively, a space in the format matches a
non-empty whitespace run, `%d`/`%m` match one or two digits in range,
`%Y` matches exactly four digits, the whole string must be consumed, and the
resulting calendar date must be valid (else the format fails, as the
`datetime` constructor raises `ValueError`). -/

/-- A calendar date (`datetime.date`). -/
structure YMD where
  year : Nat
  month : Nat
  day : Nat
deriving DecidableEq

/-- The value held by the `End-of-Support Date` cell: an already-structured
date value (`pandas.Timestamp` / `date` / `datetime`) or a textual value
(everything else, after `str(value)`). -/
inductive EosCell where
  | structured (d : YMD)
  | text (s : List Nat)
deriving DecidableEq

/-- The three risk tiers; `NORMAL` is an un-highlighted (zebra) row in
`generate_pdf`. -/
inductive Risk where
  | EXPIRED
  | AT_RISK
  | NORMAL
deriving DecidableEq

/-- Decimal digit value of a code point, if it is a digit. -/
def digitVal? (n : Nat) : Option Nat :=
  if 48 ≤ n ∧ n ≤ 57 then some (n - 48) else none

/-- Split a leading run of decimal digits from the input. -/
def takeDigits : List Nat → (List Nat × List Nat)
  | [] => ([], [])
  | a :: rest =>
    match digitVal? a with
    | some v =>
      let p := takeDigits rest
      (v :: p.1, p.2)
    | none => ([], a :: rest)

/-- Numeric value of a digit list. -/
def digitsVal (ds : List Nat) : Nat := ds.foldl (fun acc d => 10 * acc + d) 0

/-- `%d` / `%m`: one or two leading digits whose value lies in
`[lo, hi]`. -/
def parseNum2 (lo hi : Nat) (l : List Nat) : Option (Nat × List Nat) :=
  let p := takeDigits l
  if p.1.length = 1 ∨ p.1.length = 2 then
    let v := digitsVal p.1
    if lo ≤ v ∧ v ≤ hi then some (v, p.2) else none
  else none

/-- `%Y`: exactly four leading digits. -/
def parseYear4 : List Nat → Option (Nat × List Nat)
  | a :: b :: c :: d :: r =>
    match digitVal? a, digitVal? b, digitVal? c, digitVal? d with
    | some x, some y, some z, some w => some (1000 * x + 100 * y + 10 * z + w, r)
    | _, _, _, _ => none
  | _ => none

/-- A space in a `strptime` format: at least one whitespace character. -/
def skipWs1 : List Nat → Option (List Nat)
  | [] => none
  | a :: r => if isPyWs a then some (r.dropWhile isPyWs) else none

/-- One literal character of a `strptime` format. -/
def expectCh (c : Nat) : List Nat → Option (List Nat)
  | [] => none
  | a :: r => if a == c then some r else none

/-- Strip a (lowercase) keyword from the input, comparing
case-insensitively; returns the remainder on success. -/
def stripCI : List Nat → List Nat → Option (List Nat)
  | [], l => some l
  | _ :: _, [] => none
  | p :: ps, a :: t => if toLowerCh a == p then stripCI ps t else none

/-- Match one of a list of month names (lowercase), returning the 1-based
month number of the first name that matches. -/
def matchMonthFrom : Nat → List (List Nat) → List Nat → Option (Nat × List Nat)
  | _, [], _ => none
  | i, nm :: rest, l =>
    match stripCI nm l with
    | some r => some (i, r)
    | none => matchMonthFrom (i + 1) rest l

/-- `%b` month names (C locale abbreviations, lowercase). -/
def monthAbbrevs : List (List Nat) :=
  [codes "jan", codes "feb", codes "mar", codes "apr", codes "may",
   codes "jun", codes "jul", codes "aug", codes "sep", codes "oct",
   codes "nov", codes "dec"]

/-- `%B` month names (C locale full names, lowercase). -/
def monthFullNames : List (List Nat) :=
  [codes "january", codes "february", codes "march", codes "april",
   codes "may", codes "june", codes "july", codes "august",
   codes "september", codes "october", codes "november", codes "december"]

/-- `"%b %d, %Y"` / `"%B %d, %Y"` (month name selected by `names`): month
name, whitespace, day, comma, whitespace, four-digit year, end of input.
Returns `(month, day, year)`. -/
def parseMonthDayYear (names : List (List Nat)) (l : List Nat) :
    Option (Nat × Nat × Nat) := do
  let (m, r1) ← matchMonthFrom 1 names l
  let r2 ← skipWs1 r1
  let (d, r3) ← parseNum2 1 31 r2
  let r4 ← expectCh 44 r3
  let r5 ← skipWs1 r4
  let (y, r6) ← parseYear4 r5
  if r6.isEmpty then some (m, d, y) else none

/-- `"%Y-%m-%d"`: four-digit year, dash, month, dash, day, end of input.
Returns `(month, day, year)`. -/
def parseISO (l : List Nat) : Option (Nat × Nat × Nat) := do
  let (y, r1) ← parseYear4 l
  let r2 ← expectCh 45 r1
  let (m, r3) ← parseNum2 1 12 r2
  let r4 ← expectCh 45 r3
  let (d, r5) ← parseNum2 1 31 r4
  if r5.isEmpty then some (m, d, y) else none

/-- Gregorian leap year. -/
def isLeap (y : Nat) : Bool := y % 4 == 0 && (y % 100 != 0 || y % 400 == 0)

/-- Length of a month. -/
def daysInMonth (y m : Nat) : Nat :=
  if m = 2 then (if isLeap y then 29 else 28)
  else if m = 4 ∨ m = 6 ∨ m = 9 ∨ m = 11 then 30
  else 31

/-- The `datetime(year, month, day)` constructor: validates ranges, raising
`ValueError` (here: `none`) on an impossible date. -/
def mkValidDate (m d y : Nat) : Option YMD :=
  if 1 ≤ y ∧ y ≤ 9999 ∧ 1 ≤ m ∧ m ≤ 12 ∧ 1 ≤ d ∧ d ≤ daysInMonth y m then
    some ⟨y, m, d⟩
  else none

/-- Final `"%Y-%m-%d"` attempt of the textual date parse. -/
def parseDateTextISO (t : List Nat) : Option YMD :=
  match parseISO t with
  | some (m, d, y) => mkValidDate m d y
  | none => none

/-- The `"%B %d, %Y"` attempt of the textual date parse, falling through to
the ISO attempt. -/
def parseDateTextRest (t : List Nat) : Option YMD :=
  match parseMonthDayYear monthFullNames t with
  | some (m, d, y) =>
    match mkValidDate m d y with
    | some dt => some dt
    | none => parseDateTextISO t
  | none => parseDateTextISO t

/-- The textual branch of `_parse_end_of_support` (src/main.py:242-252):
strip, fail on empty, then try `"%b %d, %Y"`, `"%B %d, %Y"`, `"%Y-%m-%d"`
in order; a format that matches but denotes an impossible date raises
`ValueError` and the next format is tried. -/
def parseDateText (s : List Nat) : Option YMD :=
  let t := pyStrip s
  if t.isEmpty then none
  else
    match parseMonthDayYear monthAbbrevs t with
    | some (m, d, y) =>
      match mkValidDate m d y with
      | some dt => some dt
      | none => parseDateTextRest t
    | none => parseDateTextRest t

/-- `_parse_end_of_support` (src/main.py:225-252): structured date values are
accepted as-is; anything else goes through `str(value).strip()` and the
three `strptime` formats; `None` on failure. -/
def _parse_end_of_support : EosCell → Option YMD
  | .structured d => some d
  | .text s => parseDateText s

/-- Days before month `m` in year `y`. -/
def daysBeforeMonth (y m : Nat) : Nat :=
  (List.range (m - 1)).foldl (fun acc i => acc + daysInMonth y (i + 1)) 0

/-- `date.toordinal()`: day number of a proleptic Gregorian date, day 1 being
0001-01-01.  Python's `d1 - d2` yields `toOrdinal d1 - toOrdinal d2` days. -/
def toOrdinal (d : YMD) : Nat :=
  365 * (d.year - 1) + (d.year - 1) / 4 - (d.year - 1) / 100 +
    (d.year - 1) / 400 + daysBeforeMonth d.year d.month + d.day

/-- The per-row highlight decision of `generate_pdf` (src/main.py:381-398):
`None` from the parser leaves the row un-highlighted (`NORMAL`); otherwise
`days_left = (eos_date - today).days` selects red (`EXPIRED`) when negative
and yellow (`AT_RISK`) when at most 365. -/
def classifyRow (cell : EosCell) (today : YMD) : Risk :=
  match _parse_end_of_support cell with
  | none => .NORMAL
  | some d =>
    let daysLeft : Int := (toOrdinal d : Int) - (toOrdinal today : Int)
    if daysLeft < 0 then .EXPIRED
    else if daysLeft ≤ 365 then .AT_RISK
    else .NORMAL

/-! ### Report Renderer, table export (`generate_csv`, src/main.py:441-509)

One organization's `{"name": label, "report": DataFrame}` item is an
`OrgReport`; one output CSV row is a `CsvRow` with the Organization column,
the data columns (blank for placeholders, hence an `Option`), the numeric
`Total Units` column and the trailing `Note` column. -/

/-- One organization's report item from `build_eol_reports`. -/
structure OrgReport (α : Type) where
  name : List Nat
  rows : List (CatEntry α × Nat)
deriving DecidableEq

/-- One row of the combined CSV: organization label, the matched row whose
cells fill the data columns (`none` = all data columns blank), the numeric
`Total Units` value, and the `Note`. -/
structure CsvRow (α : Type) where
  organization : List Nat
  entry : Option (CatEntry α × Nat)
  totalUnits : Nat
  note : List Nat
deriving DecidableEq

/-- The rows one organization contributes to the combined CSV
(src/main.py:469-486): a single placeholder row when its report is empty,
otherwise one row per matched row with a blank note. -/
def csvRowsFor {α : Type} (item : OrgReport α) : List (CsvRow α) :=
  if item.rows.isEmpty then
    [⟨item.name, none, 0, codes "No EoL devices found"⟩]
  else
    item.rows.map fun rn => ⟨item.name, some rn, rn.2, []⟩

/-- Python `<=` on strings: lexicographic comparison of code points. -/
def lexLe : List Nat → List Nat → Bool
  | [], _ => true
  | _ :: _, [] => false
  | a :: s, b :: t => if a < b then true else if b < a then false else lexLe s t

/-- The sort key of `sorted(reports, key=lambda r: r["name"].lower())`. -/
def lowerNameOf {α : Type} (r : OrgReport α) : List Nat := r.name.map toLowerCh

/-- Stable insertion of one report into a name-sorted list (Python `sorted`
is stable; equal keys keep their original order). -/
def insertReport {α : Type} (x : OrgReport α) :
    List (OrgReport α) → List (OrgReport α)
  | [] => [x]
  | y :: t =>
    if lexLe (lowerNameOf y) (lowerNameOf x) then y :: insertReport x t
    else x :: y :: t

/-- `sorted(reports, key=lambda r: r["name"].lower())` (src/main.py:448). -/
def sortReports {α : Type} : List (OrgReport α) → List (OrgReport α)
  | [] => []
  | x :: t => insertReport x (sortReports t)

/-- `all_rows` of `generate_csv` (src/main.py:467-486): organizations in
name order, each contributing its `csvRowsFor` rows.  (The final
`sort_values` then permutes these rows.) -/
def generate_csv_rows {α : Type} (reports : List (OrgReport α)) :
    List (CsvRow α) :=
  ((sortReports reports).map csvRowsFor).flatten

/-! ### Concrete data used by witnesses and counterexamples -/

/-- The catalog entry with key `"MX68"` of the claim C1 example. -/
def mx68Entry : CatEntry Nat := ⟨codes "MX68", codes "MX68", [], 0⟩

/-- The inventory of the claim C1 example. -/
def exampleInventory : List InvDevice :=
  [⟨codes "MX68", some (codes "N1")⟩,
   ⟨codes "MX68", none⟩,
   ⟨codes "mx68", some (codes "N2")⟩]

/-- Catalog for the C4 counterexample: two entries with distinct keys. -/
def sortCexCatalog : List (CatEntry Unit) :=
  [⟨codes "A", codes "A", [], ()⟩, ⟨codes "B", codes "B", [], ()⟩]

/-- Inventory for the C4 counterexample: five assigned units of each model. -/
def sortCexDevices : List InvDevice :=
  List.replicate 5 ⟨codes "A", some (codes "N")⟩ ++
    List.replicate 5 ⟨codes "B", some (codes "N")⟩

/-- A sorted output of the C4 counterexample's matched rows in which the tied
rows appear in the opposite of catalog order. -/
def sortCexOut : List (CatEntry Unit × Nat) :=
  [(⟨codes "B", codes "B", [], ()⟩, 5), (⟨codes "A", codes "A", [], ()⟩, 5)]

/-- A one-row, two-cell markup table in which both cells carry a link (C6
counterexample). -/
def linkCexTable : List (List (List (Option (List Nat)))) :=
  [[[some (codes "u1")], [some (codes "u2")]]]

/-! ### Lemmas about the string primitives -/

theorem pyUpperCh_not_lower (n : Nat) : ¬(97 ≤ pyUpperCh n ∧ pyUpperCh n ≤ 122) := by
  unfold pyUpperCh; split <;> omega

theorem pyUpperCh_idem (n : Nat) : pyUpperCh (pyUpperCh n) = pyUpperCh n := by
  unfold pyUpperCh
  split
  · split <;> omega
  · rfl

theorem pyUpperCh_eq_nonletter {n m : Nat} (h : pyUpperCh n = m)
    (hm : ¬(65 ≤ m ∧ m ≤ 90)) : n = m := by
  unfold pyUpperCh at h; split at h <;> omega

theorem isPyWs_upper_of_not {n : Nat} (h : isPyWs n = false) :
    isPyWs (pyUpperCh n) = false := by
  simp only [isPyWs, Bool.or_eq_false_iff, beq_eq_false_iff_ne] at h ⊢
  unfold pyUpperCh; split <;> omega

theorem map_pyUpperCh_idem (s : List Nat) :
    (s.map pyUpperCh).map pyUpperCh = s.map pyUpperCh := by
  induction s with
  | nil => rfl
  | cons a t ih => simp [pyUpperCh_idem, ih]

theorem mem_of_mem_takeWhile {p : Nat → Bool} {a : Nat} {l : List Nat}
    (h : a ∈ l.takeWhile p) : a ∈ l ∧ p a = true := by
  induction l with
  | nil => simp [List.takeWhile_nil] at h
  | cons x t ih =>
    rw [List.takeWhile_cons] at h
    by_cases hx : p x
    · rw [if_pos hx] at h
      rcases List.mem_cons.mp h with h1 | h2
      · subst h1; exact ⟨List.mem_cons_self _ _, hx⟩
      · exact ⟨List.mem_cons_of_mem _ (ih h2).1, (ih h2).2⟩
    · rw [if_neg hx] at h; simp at h

theorem mem_of_mem_dropWhile {p : Nat → Bool} {a : Nat} {l : List Nat}
    (h : a ∈ l.dropWhile p) : a ∈ l :=
  (List.dropWhile_sublist p).mem h

theorem mem_rstripWs {a : Nat} {l : List Nat} (h : a ∈ rstripWs l) : a ∈ l := by
  induction l with
  | nil => simp [rstripWs] at h
  | cons x t ih =>
    cases hm : rstripWs t with
    | nil =>
      simp only [rstripWs, hm] at h
      by_cases hw : isPyWs x
      · simp [hw] at h
      · simp [hw] at h; simp [h]
    | cons b u =>
      simp only [rstripWs, hm] at h
      rcases List.mem_cons.mp h with h1 | h2
      · simp [h1]
      · exact List.mem_cons_of_mem x (ih (hm ▸ h2))

theorem mem_pyStrip {a : Nat} {l : List Nat} (h : a ∈ pyStrip l) : a ∈ l :=
  mem_of_mem_dropWhile (mem_rstripWs h)

theorem mem_takeBeforeCh {a c : Nat} {l : List Nat} (h : a ∈ takeBeforeCh c l) :
    a ∈ l ∧ a ≠ c := by
  have := mem_of_mem_takeWhile h
  exact ⟨this.1, by simpa using this.2⟩

theorem mem_takeBeforeSeq {a : Nat} {pat : List Nat} :
    ∀ {l : List Nat}, a ∈ takeBeforeSeq pat l → a ∈ l := by
  intro l
  induction l with
  | nil => simp [takeBeforeSeq]
  | cons x t ih =>
    unfold takeBeforeSeq
    split
    · simp
    · intro h
      rcases List.mem_cons.mp h with h1 | h2
      · simp [h1]
      · exact List.mem_cons_of_mem x (ih h2)

theorem dropWhile_eq_self_of {p : Nat → Bool} {l : List Nat}
    (h : ∀ a ∈ l, p a = false) : l.dropWhile p = l := by
  cases l with
  | nil => rfl
  | cons x t => simp [List.dropWhile_cons, h x (List.mem_cons_self _ _)]

theorem dropWhile_eq_nil_of_all {p : Nat → Bool} {l : List Nat}
    (h : ∀ a ∈ l, p a = true) : l.dropWhile p = [] := by
  induction l with
  | nil => rfl
  | cons x t ih =>
    simp [List.dropWhile_cons, h x (List.mem_cons_self _ _),
      ih fun a ha => h a (List.mem_cons_of_mem _ ha)]

theorem rstripWs_eq_self_of {l : List Nat} (h : ∀ a ∈ l, isPyWs a = false) :
    rstripWs l = l := by
  induction l with
  | nil => rfl
  | cons x t ih =>
    have ht : rstripWs t = t := ih fun a ha => h a (List.mem_cons_of_mem _ ha)
    unfold rstripWs
    rw [ht]
    cases t with
    | nil => simp [h x (List.mem_cons_self _ _)]
    | cons b u => rfl

theorem pyStrip_eq_self_of {l : List Nat} (h : ∀ a ∈ l, isPyWs a = false) :
    pyStrip l = l := by
  unfold pyStrip
  rw [dropWhile_eq_self_of h, rstripWs_eq_self_of h]

theorem takeWhile_eq_self_of {p : Nat → Bool} {l : List Nat}
    (h : ∀ a ∈ l, p a = true) : l.takeWhile p = l := by
  induction l with
  | nil => rfl
  | cons x t ih =>
    simp [List.takeWhile_cons, h x (List.mem_cons_self _ _),
      ih fun a ha => h a (List.mem_cons_of_mem _ ha)]

theorem head_dropWhile_not {p : Nat → Bool} {a : Nat} {t : List Nat} :
    ∀ {l : List Nat}, l.dropWhile p = a :: t → p a = false := by
  intro l
  induction l with
  | nil => intro h; simp at h
  | cons x s ih =>
    intro h
    rw [List.dropWhile_cons] at h
    by_cases hx : p x
    · rw [if_pos hx] at h; exact ih h
    · rw [if_neg hx] at h
      injection h with h1 _
      subst h1
      simpa using hx

theorem head_rstripWs {x a : Nat} {s t : List Nat}
    (h : rstripWs (x :: s) = a :: t) : a = x := by
  unfold rstripWs at h
  cases hm : rstripWs s with
  | nil =>
    simp only [hm] at h
    split at h
    · exact List.noConfusion h
    · injection h with h1 _; omega
  | cons b u =>
    simp only [hm] at h
    injection h with h1 _
    omega

theorem head_pyStrip_not_ws {l t : List Nat} {a : Nat}
    (h : pyStrip l = a :: t) : isPyWs a = false := by
  unfold pyStrip at h
  cases hd : l.dropWhile isPyWs with
  | nil => rw [hd] at h; simp [rstripWs] at h
  | cons x s =>
    rw [hd] at h
    have hax := head_rstripWs h
    subst hax
    exact head_dropWhile_not hd

theorem head_takeWhile {p : Nat → Bool} {a : Nat} {t : List Nat} :
    ∀ {l : List Nat}, l.takeWhile p = a :: t → ∃ u, l = a :: u := by
  intro l
  cases l with
  | nil => intro h; simp at h
  | cons x s =>
    intro h
    rw [List.takeWhile_cons] at h
    by_cases hx : p x
    · rw [if_pos hx] at h
      injection h with h1 _
      exact ⟨s, by rw [h1]⟩
    · rw [if_neg hx] at h; simp at h

theorem head_takeBeforeSeq {pat : List Nat} {a : Nat} {t : List Nat} :
    ∀ {l : List Nat}, takeBeforeSeq pat l = a :: t → ∃ u, l = a :: u := by
  intro l
  cases l with
  | nil => intro h; simp [takeBeforeSeq] at h
  | cons x s =>
    intro h
    unfold takeBeforeSeq at h
    split at h
    · simp at h
    · injection h with h1 _
      exact ⟨s, by rw [h1]⟩

/-! ### Structural lemmas about `normalizeChars` -/

theorem normalizeChars_eq (l : List Nat) :
    normalizeChars l =
      (if containsSeq hwPat
            (takeBeforeCh 32 (pyStrip (takeBeforeCh 44 (pyStrip l)))) then
        takeBeforeSeq hwPat
          (takeBeforeCh 32 (pyStrip (takeBeforeCh 44 (pyStrip l))))
      else
        takeBeforeCh 32 (pyStrip (takeBeforeCh 44 (pyStrip l)))).map
        pyUpperCh := rfl

/-- The output of `normalizeChars` is the uppercase image of a list whose
elements come from the comma-free, trimmed middle stage and are not spaces,
and whose head (if any) heads that middle stage. -/
theorem normalizeChars_shape (l : List Nat) :
    ∃ s, normalizeChars l = s.map pyUpperCh ∧
      (∀ a ∈ s, a ∈ pyStrip (takeBeforeCh 44 (pyStrip l)) ∧ a ≠ 32) ∧
      (∀ a t, s = a :: t → isPyWs a = false) := by
  rw [normalizeChars_eq]
  by_cases hc :
      containsSeq hwPat (takeBeforeCh 32 (pyStrip (takeBeforeCh 44 (pyStrip l))))
  · refine ⟨_, by rw [if_pos hc], ?_, ?_⟩
    · intro a ha
      have h3 := mem_takeBeforeSeq ha
      exact mem_takeBeforeCh h3
    · intro a t h
      obtain ⟨u, hu⟩ := head_takeBeforeSeq h
      obtain ⟨u', hu'⟩ := head_takeWhile hu
      exact head_pyStrip_not_ws hu'
  · refine ⟨_, by rw [if_neg hc], ?_, ?_⟩
    · intro a ha
      exact mem_takeBeforeCh ha
    · intro a t h
      obtain ⟨u', hu'⟩ := head_takeWhile h
      exact head_pyStrip_not_ws hu'

theorem not_lower_normalizeChars {c : Nat} {l : List Nat}
    (h : c ∈ normalizeChars l) : ¬(97 ≤ c ∧ c ≤ 122) := by
  obtain ⟨s, hs, _, _⟩ := normalizeChars_shape l
  rw [hs] at h
  obtain ⟨a, _, ha⟩ := List.mem_map.mp h
  rw [← ha]
  exact pyUpperCh_not_lower a

theorem comma_not_mem_normalizeChars {l : List Nat} :
    44 ∉ normalizeChars l := by
  intro h
  obtain ⟨s, hs, hmem, _⟩ := normalizeChars_shape l
  rw [hs] at h
  obtain ⟨a, hain, ha⟩ := List.mem_map.mp h
  have ha44 : a = 44 := pyUpperCh_eq_nonletter ha (by omega)
  subst ha44
  have h2 := (hmem 44 hain).1
  have h3 := mem_takeBeforeCh (mem_pyStrip h2)
  exact h3.2 rfl

theorem space_not_mem_normalizeChars {l : List Nat} :
    32 ∉ normalizeChars l := by
  intro h
  obtain ⟨s, hs, hmem, _⟩ := normalizeChars_shape l
  rw [hs] at h
  obtain ⟨a, hain, ha⟩ := List.mem_map.mp h
  have ha32 : a = 32 := pyUpperCh_eq_nonletter ha (by omega)
  subst ha32
  exact (hmem 32 hain).2 rfl

theorem head_normalizeChars_not_ws {c : Nat} {l t : List Nat}
    (h : normalizeChars l = c :: t) : isPyWs c = false := by
  obtain ⟨s, hs, _, hhead⟩ := normalizeChars_shape l
  rw [hs] at h
  cases s with
  | nil => simp at h
  | cons a s' =>
    rw [List.map_cons] at h
    injection h with h1 _
    rw [← h1]
    exact isPyWs_upper_of_not (hhead a s' rfl)

/-! ### Claim C3: description of the Key Normalizer -/

/-- C3 (counterexample): the claim's description — "the uppercase of the
first space-separated token of the text before the first comma of the
trimmed input, truncated at \x22-HW\x22" — disagrees with
`normalize_product_to_key` on `"ab\t,x"`: the code strips the text before
the comma again (giving `"AB"`), the description does not (giving
`"AB\t"`). -/
theorem C3_counterexample :
    normalize_product_to_key (.str (codes "ab\t,x")) ≠
      claimedNormalize (.str (codes "ab\t,x")) := by decide

/-- C3 (amended): the Key Normalizer returns the uppercase of the first
space-separated token of the *trimmed* text before the first comma of the
trimmed input, truncated at the literal substring `"-HW"` if present;
empty, whitespace-only, or non-string input returns the empty string; and
`normalize("MX68-HW") = "MX68"`, `normalize("") = ""`,
`normalize("mx68 cloud managed") = "MX68"`. -/
theorem C3_normalizer_description :
    (∀ v : PyVal, normalize_product_to_key v = claimedNormalizeTrimmed v) ∧
    normalize_product_to_key (.str (codes "MX68-HW")) = codes "MX68" ∧
    normalize_product_to_key (.str (codes "")) = [] ∧
    normalize_product_to_key (.str (codes "mx68 cloud managed")) = codes "MX68" ∧
    normalize_product_to_key .nonStr = [] ∧
    (∀ l : List Nat, (∀ a ∈ l, isPyWs a = true) →
      normalize_product_to_key (.str l) = []) := by
  refine ⟨?_, by decide, by decide, by decide, rfl, ?_⟩
  · intro v
    cases v with
    | str l => rfl
    | nonStr => rfl
  · intro l h
    show normalizeChars l = []
    have hnil : pyStrip l = [] := by
      unfold pyStrip
      rw [dropWhile_eq_nil_of_all h]
      rfl
    rw [normalizeChars_eq, hnil]
    decide

/-- C3 witness: a whitespace-only input maps to the empty string. -/
theorem C3_normalizer_description_witness :
    normalize_product_to_key (.str (codes " \t ")) = [] :=
  C3_normalizer_description.2.2.2.2.2 (codes " \t ") (by decide)

/-! ### Claim C7: idempotence of the Key Normalizer -/

/-- C7 (counterexample): the normalizer is not a fixed point on its own
output: `normalize("mx68-hw") = "MX68-HW"` (the case-sensitive `"-HW" in s`
test does not fire on `"-hw"` before uppercasing), and a second run then
truncates, `normalize("MX68-HW") = "MX68"`. -/
theorem C7_counterexample :
    normalize_product_to_key
        (.str (normalize_product_to_key (.str (codes "mx68-hw")))) ≠
      normalize_product_to_key (.str (codes "mx68-hw")) := by decide

/-- C7 (amended): the normalizer is a fixed point on its own output for
every input whose output contains no whitespace character and no occurrence
of the substring `"-HW"`; in general a second run can differ (see the
counterexample). -/
theorem C7_normalizer_idempotent_when_clean :
    ∀ v : PyVal,
      (∀ c ∈ normalize_product_to_key v, isPyWs c = false) →
      containsSeq hwPat (normalize_product_to_key v) = false →
      normalize_product_to_key (.str (normalize_product_to_key v)) =
        normalize_product_to_key v := by
  intro v h1 h2
  cases v with
  | nonStr => decide
  | str l =>
    show normalizeChars (normalizeChars l) = normalizeChars l
    have h1' : ∀ c ∈ normalizeChars l, isPyWs c = false := h1
    have e1 : pyStrip (normalizeChars l) = normalizeChars l :=
      pyStrip_eq_self_of h1'
    have e2 : takeBeforeCh 44 (normalizeChars l) = normalizeChars l := by
      apply takeWhile_eq_self_of
      intro a ha
      have : a ≠ 44 := by
        intro hEq
        exact comma_not_mem_normalizeChars (hEq ▸ ha)
      simpa using this
    have e3 : takeBeforeCh 32 (normalizeChars l) = normalizeChars l := by
      apply takeWhile_eq_self_of
      intro a ha
      have : a ≠ 32 := by
        intro hEq
        exact space_not_mem_normalizeChars (hEq ▸ ha)
      simpa using this
    have h2' : containsSeq hwPat (normalizeChars l) = false := h2
    rw [normalizeChars_eq (normalizeChars l), e1, e2, e1, e3, h2']
    simp only [Bool.false_eq_true, if_false]
    obtain ⟨s, hs, _, _⟩ := normalizeChars_shape l
    rw [hs, map_pyUpperCh_idem]

/-- C7 witness: on `"MX68-HW"` the output `"MX68"` is whitespace-free and
`"-HW"`-free, so a second run is the identity. -/
theorem C7_normalizer_idempotent_witness :
    normalize_product_to_key
        (.str (normalize_product_to_key (.str (codes "MX68-HW")))) =
      normalize_product_to_key (.str (codes "MX68-HW")) :=
  C7_normalizer_idempotent_when_clean (.str (codes "MX68-HW")) (by decide)
    (by decide)

/-! ### Claim C10: character-level invariants of the Key Normalizer -/

/-- C10 (counterexample): the output can carry trailing whitespace: for
input `"a\t b"` the first space-separated token is `"a\t"`, so the output is
`"A\t"`, which does not equal its own trim. -/
theorem C10_counterexample :
    pyStrip (normalize_product_to_key (.str (codes "a\t b"))) ≠
      normalize_product_to_key (.str (codes "a\t b")) := by decide

/-- C10 (amended): for every input value, the normalizer's output contains
no lowercase ASCII letter, no comma and no space, and carries no *leading*
whitespace; trailing non-space whitespace can remain (see the
counterexample). -/
theorem C10_normalizer_output_invariants :
    ∀ v : PyVal,
      (∀ c ∈ normalize_product_to_key v, ¬(97 ≤ c ∧ c ≤ 122)) ∧
      44 ∉ normalize_product_to_key v ∧
      32 ∉ normalize_product_to_key v ∧
      (∀ c t, normalize_product_to_key v = c :: t → isPyWs c = false) := by
  intro v
  cases v with
  | nonStr =>
    refine ⟨?_, ?_, ?_, ?_⟩ <;> simp [normalize_product_to_key]
  | str l =>
    exact ⟨fun c hc => not_lower_normalizeChars hc,
      comma_not_mem_normalizeChars,
      space_not_mem_normalizeChars,
      fun c t h => head_normalizeChars_not_ws h⟩

/-- C10 witness: on `"mx68 fw"` the output is `"MX68" = [77, 88, 54, 56]`;
its member `77` is no lowercase letter and its head `77` is no
whitespace. -/
theorem C10_normalizer_output_invariants_witness :
    ¬(97 ≤ 77 ∧ 77 ≤ 122) ∧ isPyWs 77 = false :=
  ⟨(C10_normalizer_output_invariants (.str (codes "mx68 fw"))).1 77 (by decide),
   (C10_normalizer_output_invariants (.str (codes "mx68 fw"))).2.2.2 77
     [88, 54, 56] (by decide)⟩

/-! ### Lemmas about the builder -/

theorem extractLinks_flat (table : List (List (List (Option (List Nat))))) :
    extractLinks table =
      (table.flatten.map cellLinks).filter (fun s => !s.isEmpty) := by
  induction table with
  | nil => rfl
  | cons row t ih =>
    show (row.map cellLinks).filter (fun s => !s.isEmpty) ++ extractLinks t = _
    rw [ih]
    simp [List.map_append, List.filter_append]

theorem padTo_length (n : Nat) (ls : List (List (List Nat))) :
    (padTo n ls).length = n := by
  simp only [padTo, List.length_append, List.length_take, List.length_replicate]
  omega

theorem zipWith_attach_map {α : Type} :
    ∀ (rows : List (RawRow α)) (ps : List (List (List Nat))),
      ps.length = rows.length →
      (rows.zipWith (fun r l => (⟨r.product, l, r.rest⟩ : CatRow α)) ps).map
          (fun c => (c.product, c.rest)) =
        rows.map fun r => (r.product, r.rest) := by
  intro rows
  induction rows with
  | nil => intro ps _; rfl
  | cons r t ih =>
    intro ps h
    cases ps with
    | nil => simp at h
    | cons p pt =>
      simp only [List.zipWith_cons_cons, List.map_cons]
      rw [ih pt (by simpa using h)]

theorem zipWith_attach_links {α : Type} :
    ∀ (rows : List (RawRow α)) (ps : List (List (List Nat))),
      ps.length = rows.length →
      (rows.zipWith (fun r l => (⟨r.product, l, r.rest⟩ : CatRow α)) ps).map
          (fun c => c.links) = ps := by
  intro rows
  induction rows with
  | nil =>
    intro ps h
    cases ps with
    | nil => rfl
    | cons p pt => simp at h
  | cons r t ih =>
    intro ps h
    cases ps with
    | nil => simp at h
    | cons p pt =>
      simp only [List.zipWith_cons_cons, List.map_cons]
      rw [ih pt (by simpa using h)]

/-! ### Claim C8: productKey is never empty -/

/-- C8: every catalog entry returned by the EoL Table Builder has a
non-empty `productKey` — expanded rows whose label normalizes to the empty
string are dropped by the `ProductKey != ""` filter. -/
theorem C8_productKey_never_empty :
    ∀ (α : Type) (rows : List (CatRow α)) (e : CatEntry α),
      e ∈ buildCatalog rows → e.productKey ≠ [] := by
  intro α rows e he
  simp only [buildCatalog] at he
  obtain ⟨rk, hrk, hrke⟩ := List.mem_map.mp he
  have h2 := (List.mem_filter.mp hrk).2
  simp at h2
  rw [← hrke]
  simpa using h2

/-- C8 witness: the builder applied to the single raw label `"MX68-HW"`
yields one entry, whose key `"MX68"` is non-empty. -/
theorem C8_productKey_never_empty_witness :
    (⟨codes "MX68-HW", codes "MX68", [], 0⟩ : CatEntry Nat).productKey ≠ [] :=
  C8_productKey_never_empty Nat [⟨codes "MX68-HW", [], 0⟩] _ (by decide)

/-! ### Claim C5: multi-SKU expansion -/

/-- C5 (counterexample): the two rows expanded from
`"MS120-8, MS120-8FP"` do *not* both receive the key `"MS120"`; the
normalizer truncates at `"-HW"`, not at `"-"`, so the keys are
`"MS120-8"` and `"MS120-8FP"`. -/
theorem C5_counterexample :
    (buildCatalog [(⟨codes "MS120-8, MS120-8FP", [], 0⟩ : CatRow Nat)]).map
        (fun e => e.productKey) ≠ [codes "MS120", codes "MS120"] := by decide

/-- C5 (amended): a raw catalog row whose Product cell is
`"MS120-8, MS120-8FP"` expands into exactly two rows, one per
comma-separated SKU label with all other fields duplicated unchanged, and
the expanded rows receive the productKeys `"MS120-8"` and `"MS120-8FP"`
respectively. -/
theorem C5_expansion (α : Type) (ls : List (List Nat)) (rest : α) :
    buildCatalog [⟨codes "MS120-8, MS120-8FP", ls, rest⟩] =
      [⟨codes "MS120-8", codes "MS120-8", joinSemicolon ls, rest⟩,
       ⟨codes "MS120-8FP", codes "MS120-8FP", joinSemicolon ls, rest⟩] := rfl

/-! ### Claim C6: link extraction and positional alignment -/

/-- C6 (counterexample): link extraction is per *cell*, not per row: a
single row with links in two different cells contributes two link lists, so
the extracted list is not aligned one-to-one with the table rows. -/
theorem C6_counterexample :
    extractLinks linkCexTable ≠ claimedRowLinks linkCexTable ∧
      (extractLinks linkCexTable).length ≠ linkCexTable.length := by decide

/-- C6 (amended): link extraction produces one list per table *cell* that
contains at least one hyperlink, in row-major document order (equivalently:
it is the row-structure-oblivious filter of the flattened cells); the
attachment step then pairs these lists positionally with the parsed rows,
truncating or padding with empty link lists rather than failing, so every
parsed row survives with its own data, and when the counts agree row `i`
receives extracted list `i`. -/
theorem C6_link_extraction :
    (∀ table, extractLinks table =
      (table.flatten.map cellLinks).filter fun s => !s.isEmpty) ∧
    (∀ (α : Type) (rows : List (RawRow α)) ls,
      (attachLinks rows ls).map (fun c => (c.product, c.rest)) =
        rows.map fun r => (r.product, r.rest)) ∧
    (∀ (α : Type) (rows : List (RawRow α)) ls, ls.length = rows.length →
      (attachLinks rows ls).map (fun c => c.links) = ls) := by
  refine ⟨extractLinks_flat, ?_, ?_⟩
  · intro α rows ls
    unfold attachLinks
    by_cases h : ls.length = rows.length
    · rw [if_pos (by simpa using h)]
      exact zipWith_attach_map rows ls h
    · rw [if_neg (by simpa using h)]
      exact zipWith_attach_map rows (padTo rows.length ls) (padTo_length _ _)
  · intro α rows ls h
    unfold attachLinks
    rw [if_pos (by simpa using h)]
    exact zipWith_attach_links rows ls h

/-- C6 witness: one raw row and one extracted link list: the row survives
with its data and receives the list. -/
theorem C6_link_extraction_witness :
    (attachLinks [(⟨codes "P", 0⟩ : RawRow Nat)] [[codes "u"]]).map
        (fun c => c.links) = [[codes "u"]] :=
  C6_link_extraction.2.2 Nat [⟨codes "P", 0⟩] [[codes "u"]] (by decide)

/-! ### Lemmas about the matcher -/

theorem count_assignedModelKeys (devices : List InvDevice) (k : List Nat) :
    (assignedModelKeys devices).count k =
      devices.countP fun d => d.networkId.isSome && (d.model.map pyUpperCh == k) := by
  induction devices with
  | nil => rfl
  | cons d t ih =>
    simp only [assignedModelKeys] at ih ⊢
    simp only [List.filter_cons, List.countP_cons]
    by_cases h : d.networkId.isSome
    · simp [h, List.count_cons, ih]
    · simp [h, ih]

theorem perm_insertDescBy {α : Type} (x : CatEntry α × Nat) :
    ∀ l : List (CatEntry α × Nat), (insertDescBy x l).Perm (x :: l) := by
  intro l
  induction l with
  | nil => exact List.Perm.refl _
  | cons y t ih =>
    unfold insertDescBy
    by_cases h : x.2 ≤ y.2
    · rw [if_pos h]
      exact (ih.cons y).trans (List.Perm.swap x y t)
    · rw [if_neg h]

theorem pairwise_insertDescBy {α : Type} (x : CatEntry α × Nat)
    {l : List (CatEntry α × Nat)} (hl : l.Pairwise fun a b => b.2 ≤ a.2) :
    (insertDescBy x l).Pairwise fun a b => b.2 ≤ a.2 := by
  induction l with
  | nil => simp [insertDescBy]
  | cons y t ih =>
    rw [List.pairwise_cons] at hl
    obtain ⟨hy, ht⟩ := hl
    unfold insertDescBy
    by_cases h : x.2 ≤ y.2
    · rw [if_pos h]
      rw [List.pairwise_cons]
      refine ⟨?_, ih ht⟩
      intro b hb
      rcases List.mem_cons.mp ((perm_insertDescBy x t).mem_iff.mp hb) with hbx | hbt
      · rw [hbx]; exact h
      · exact hy b hbt
    · rw [if_neg h]
      rw [List.pairwise_cons]
      refine ⟨?_, List.pairwise_cons.mpr ⟨hy, ht⟩⟩
      intro b hb
      rcases List.mem_cons.mp hb with hbx | hbt
      · rw [hbx]; omega
      · have := hy b hbt
        omega

theorem validUnitsSort_sortDescByUnits {α : Type}
    (l : List (CatEntry α × Nat)) : validUnitsSort l (sortDescByUnits l) := by
  induction l with
  | nil => exact ⟨List.Perm.refl _, List.Pairwise.nil⟩
  | cons x t ih =>
    exact ⟨(ih.1.cons x).trans (perm_insertDescBy x (sortDescByUnits t)).symm,
      pairwise_insertDescBy x ih.2⟩

/-! ### Claim C1: matcher counting and survival -/

/-- C1: for every catalog and inventory, each matched row's unit count is
the number of devices with a non-null `networkId` whose uppercased model
equals the entry's `productKey` and is at least 1; a catalog entry survives
into the matched set exactly when that count is at least 1; and on the
example inventory (two assigned `MX68`/`mx68` units, one unassigned) with
catalog key `"MX68"` the total is 2. -/
theorem C1_matcher_counts :
    (∀ (α : Type) (catalog : List (CatEntry α)) (devices : List InvDevice),
      (∀ e n, (e, n) ∈ matchedRows catalog devices →
        e ∈ catalog ∧ 1 ≤ n ∧
          n = devices.countP fun d =>
                d.networkId.isSome && (d.model.map pyUpperCh == e.productKey)) ∧
      (∀ e ∈ catalog,
        1 ≤ devices.countP (fun d =>
            d.networkId.isSome && (d.model.map pyUpperCh == e.productKey)) →
        (e, devices.countP fun d =>
            d.networkId.isSome && (d.model.map pyUpperCh == e.productKey)) ∈
          matchedRows catalog devices)) ∧
    (matchedRows [mx68Entry] exampleInventory).map (fun r => r.2) = [2] := by
  refine ⟨?_, by decide⟩
  intro α catalog devices
  constructor
  · intro e n hmem
    simp only [matchedRows] at hmem
    obtain ⟨a, ha, hfa⟩ := List.mem_filterMap.mp hmem
    split at hfa
    · exact absurd hfa (by simp)
    · rename_i hc
      injection hfa with h1
      injection h1 with h2 h3
      subst h2
      subst h3
      exact ⟨ha, by omega, count_assignedModelKeys devices a.productKey⟩
  · intro e he hcount
    simp only [matchedRows]
    apply List.mem_filterMap.mpr
    refine ⟨e, he, ?_⟩
    rw [count_assignedModelKeys]
    rw [if_neg (by omega)]

/-- C1 witness: in the example, the matched row `(mx68Entry, 2)` is in the
matched set, and the theorem yields membership, positivity and the count
characterization for it. -/
theorem C1_matcher_counts_witness :
    mx68Entry ∈ [mx68Entry] ∧ 1 ≤ 2 ∧
      2 = exampleInventory.countP fun d =>
            d.networkId.isSome && (d.model.map pyUpperCh == mx68Entry.productKey) :=
  (C1_matcher_counts.1 Nat [mx68Entry] exampleInventory).1 mx68Entry 2 (by decide)

/-! ### Claim C4: sorting of matched rows -/

/-- C4 (counterexample): the sort contract of
`sort_values(by=["Total Units"], ascending=False)` (pandas default, unstable
`quicksort`) admits an output in which two tied rows appear in the opposite
of their catalog order, so tie order is not guaranteed.  The input here is
the matched-row list of a concrete catalog and inventory with two entries of
5 units each. -/
theorem C4_counterexample :
    validUnitsSort (matchedRows sortCexCatalog sortCexDevices) sortCexOut ∧
      ¬tiesKeepOrder (matchedRows sortCexCatalog sortCexDevices) sortCexOut := by
  have hm : matchedRows sortCexCatalog sortCexDevices =
      [(⟨codes "A", codes "A", [], ()⟩, 5), (⟨codes "B", codes "B", [], ()⟩, 5)] := by
    decide
  constructor
  · rw [hm]
    exact ⟨List.Perm.swap _ _ _, by simp [sortCexOut]⟩
  · rw [hm]
    intro h
    obtain ⟨i', j', hi', hj', hlt, h1, h2⟩ :=
      h 0 1 (by decide) (by decide) (by decide) (by decide)
    simp only [sortCexOut, List.length_cons, List.length_nil] at hi' hj'
    have hi0 : i' = 0 := by omega
    have hj1 : j' = 1 := by omega
    subst hi0
    subst hj1
    have h1' : ((⟨codes "B", codes "B", [], ()⟩ : CatEntry Unit), 5) =
        ((⟨codes "A", codes "A", [], ()⟩ : CatEntry Unit), 5) := h1
    exact absurd h1' (by decide)

/-- C4 (amended): the matcher's output rows are sorted by `totalUnits`
descending — such an output always exists, and any valid output is a
permutation of the surviving rows (same length, same members); the relative
order of rows with equal `totalUnits` is left unspecified by the code's
unstable default sort. -/
theorem C4_sort_contract :
    (∀ (α : Type) (inp : List (CatEntry α × Nat)),
      validUnitsSort inp (sortDescByUnits inp)) ∧
    (∀ (α : Type) (inp out : List (CatEntry α × Nat)), validUnitsSort inp out →
      out.length = inp.length ∧ ∀ x, x ∈ out ↔ x ∈ inp) := by
  constructor
  · intro α inp
    exact validUnitsSort_sortDescByUnits inp
  · intro α inp out h
    exact ⟨h.1.length_eq.symm, fun x => h.1.mem_iff.symm⟩

/-- C4 witness: applying the contract to the counterexample's input and a
valid output of it. -/
theorem C4_sort_contract_witness :
    sortCexOut.length = (matchedRows sortCexCatalog sortCexDevices).length ∧
      ∀ x, x ∈ sortCexOut ↔ x ∈ matchedRows sortCexCatalog sortCexDevices :=
  C4_sort_contract.2 Unit (matchedRows sortCexCatalog sortCexDevices) sortCexOut
    ⟨by decide, by decide⟩

/-! ### Claim C2: risk classification -/

/-- C2: for every End-of-Support cell value and every `today`, with
`daysLeft = toOrdinal(eos) - toOrdinal(today)`: a parsed date classifies as
`EXPIRED` iff `daysLeft < 0`, as `AT_RISK` iff `0 ≤ daysLeft ≤ 365`, and as
`NORMAL` iff `daysLeft > 365`; a value the parser rejects (none of the
accepted textual formats, and not an already-structured date) classifies as
`NORMAL` (the total function raises no error). -/
theorem C2_risk_classification :
    ∀ (cell : EosCell) (today : YMD),
      (_parse_end_of_support cell = none →
        classifyRow cell today = Risk.NORMAL) ∧
      (∀ d, _parse_end_of_support cell = some d →
        ((classifyRow cell today = Risk.EXPIRED ↔
            (toOrdinal d : Int) - (toOrdinal today : Int) < 0) ∧
         (classifyRow cell today = Risk.AT_RISK ↔
            0 ≤ (toOrdinal d : Int) - (toOrdinal today : Int) ∧
              (toOrdinal d : Int) - (toOrdinal today : Int) ≤ 365) ∧
         (classifyRow cell today = Risk.NORMAL ↔
            365 < (toOrdinal d : Int) - (toOrdinal today : Int)))) := by
  intro cell today
  constructor
  · intro h
    simp [classifyRow, h]
  · intro d hd
    simp only [classifyRow, hd]
    set D : Int := (toOrdinal d : Int) - (toOrdinal today : Int) with hD
    by_cases h1 : D < 0
    · rw [if_pos h1]
      exact ⟨⟨fun _ => h1, fun _ => rfl⟩,
        ⟨fun hx => Risk.noConfusion hx, fun hx => absurd h1 (by omega)⟩,
        ⟨fun hx => Risk.noConfusion hx, fun hx => absurd h1 (by omega)⟩⟩
    · rw [if_neg h1]
      by_cases h2 : D ≤ 365
      · rw [if_pos h2]
        exact ⟨⟨fun hx => Risk.noConfusion hx, fun hx => absurd hx h1⟩,
          ⟨fun _ => ⟨by omega, h2⟩, fun _ => rfl⟩,
          ⟨fun hx => Risk.noConfusion hx, fun hx => absurd h2 (by omega)⟩⟩
      · rw [if_neg h2]
        exact ⟨⟨fun hx => Risk.noConfusion hx, fun hx => absurd hx h1⟩,
          ⟨fun hx => Risk.noConfusion hx, fun hx => absurd hx.2 h2⟩,
          ⟨fun _ => by omega, fun _ => rfl⟩⟩

/-- C2 witness: `"not a date"` parses to nothing and classifies `NORMAL`;
`"2025-06-01"` seen from 2025-01-01 satisfies the `AT_RISK`
characterization. -/
theorem C2_risk_classification_witness :
    classifyRow (.text (codes "not a date")) ⟨2025, 1, 1⟩ = Risk.NORMAL ∧
      (classifyRow (.text (codes "2025-06-01")) ⟨2025, 1, 1⟩ = Risk.AT_RISK ↔
        0 ≤ (toOrdinal ⟨2025, 6, 1⟩ : Int) - (toOrdinal ⟨2025, 1, 1⟩ : Int) ∧
          (toOrdinal ⟨2025, 6, 1⟩ : Int) - (toOrdinal ⟨2025, 1, 1⟩ : Int) ≤ 365) :=
  ⟨(C2_risk_classification (.text (codes "not a date")) ⟨2025, 1, 1⟩).1
      (by decide),
   ((C2_risk_classification (.text (codes "2025-06-01")) ⟨2025, 1, 1⟩).2
      ⟨2025, 6, 1⟩ (by decide)).2.1⟩

/-! ### Lemmas about the CSV export -/

theorem perm_insertReport {α : Type} (x : OrgReport α) :
    ∀ l : List (OrgReport α), (insertReport x l).Perm (x :: l) := by
  intro l
  induction l with
  | nil => exact List.Perm.refl _
  | cons y t ih =>
    unfold insertReport
    by_cases h : lexLe (lowerNameOf y) (lowerNameOf x) = true
    · rw [if_pos h]
      exact (ih.cons y).trans (List.Perm.swap x y t)
    · rw [if_neg h]

theorem perm_sortReports {α : Type} (l : List (OrgReport α)) :
    (sortReports l).Perm l := by
  induction l with
  | nil => exact List.Perm.refl _
  | cons x t ih =>
    exact (perm_insertReport x (sortReports t)).trans (ih.cons x)

/-! ### Claim C9: placeholder rows in the combined table export -/

/-- C9: an organization with an empty report contributes exactly one
placeholder row — blank data columns (`entry = none`), `Total Units = 0`
and the non-empty note `"No EoL devices found"` — and an organization with
matches contributes exactly one row per matched row, each with a blank
note; the placeholder of every empty organization appears in the combined
row list. -/
theorem C9_csv_rows :
    (∀ (α : Type) (item : OrgReport α),
      (item.rows = [] →
        csvRowsFor item =
            [⟨item.name, none, 0, codes "No EoL devices found"⟩] ∧
          codes "No EoL devices found" ≠ ([] : List Nat)) ∧
      (item.rows ≠ [] →
        (csvRowsFor item).map (fun r => (r.entry, r.totalUnits, r.note)) =
          item.rows.map fun rn => (some rn, rn.2, ([] : List Nat)))) ∧
    (∀ (α : Type) (reports : List (OrgReport α)) (item : OrgReport α),
      item ∈ reports → item.rows = [] →
      (⟨item.name, none, 0, codes "No EoL devices found"⟩ : CsvRow α) ∈
        generate_csv_rows reports) := by
  constructor
  · intro α item
    constructor
    · intro h
      exact ⟨by simp [csvRowsFor, h], by decide⟩
    · intro h
      simp only [csvRowsFor]
      rw [if_neg (by simpa [List.isEmpty_iff] using h)]
      rw [List.map_map]
      rfl
  · intro α reports item hin hrows
    have hsorted : item ∈ sortReports reports :=
      (perm_sortReports reports).mem_iff.mpr hin
    simp only [generate_csv_rows]
    apply List.mem_flatten.mpr
    refine ⟨csvRowsFor item, List.mem_map_of_mem _ hsorted, ?_⟩
    simp [csvRowsFor, hrows]

/-- C9 witness: one empty and one non-empty organization, with the
placeholder also appearing in the combined rows. -/
theorem C9_csv_rows_witness :
    (csvRowsFor (⟨codes "Empty Org", []⟩ : OrgReport Nat) =
        [⟨codes "Empty Org", none, 0, codes "No EoL devices found"⟩] ∧
      codes "No EoL devices found" ≠ ([] : List Nat)) ∧
    ((csvRowsFor (⟨codes "Full Org", [(mx68Entry, 2)]⟩ : OrgReport Nat)).map
        (fun r => (r.entry, r.totalUnits, r.note)) =
      [(mx68Entry, 2)].map fun rn => (some rn, rn.2, ([] : List Nat))) ∧
    (⟨codes "Empty Org", none, 0, codes "No EoL devices found"⟩ : CsvRow Nat) ∈
      generate_csv_rows [⟨codes "Empty Org", []⟩] :=
  ⟨(C9_csv_rows.1 Nat ⟨codes "Empty Org", []⟩).1 rfl,
   (C9_csv_rows.1 Nat ⟨codes "Full Org", [(mx68Entry, 2)]⟩).2 (by decide),
   C9_csv_rows.2 Nat [⟨codes "Empty Org", []⟩] ⟨codes "Empty Org", []⟩
     (by decide) rfl⟩
